import Mathlib

/-! Shallow embedding of the crypto-mac crate (src/crypto-mac/src/lib.rs):
the error types `MacError` and `InvalidKeyLength`, the `Mac` trait with its
two derived (default) methods `new_varkey` and `verify`, and the `MacResult`
wrapper with its constant-time `PartialEq` implementation.

Modelling conventions: a byte is a `Nat` (the bitwise operations `^^^` and
`|||` used by the comparison cannot overflow, so no truncation is needed);
`GenericArray<u8, N>` is a list of bytes indexed by its length; the
slice-to-array conversions `GenericArray::from_slice` and
`GenericArray::clone_from_slice`, which abort the process on a length
mismatch, return `Option` with `none` standing for the panic; `&mut self`
methods pass their state explicitly, so `result` returns the produced tag
together with the successor state. -/

/-- Model of `GenericArray<u8, N>`: a byte list of length exactly `N`. -/
abbrev ByteArrayN (N : Nat) : Type := { l : List Nat // l.length = N }

/-- Model of `GenericArray::from_slice`, which panics (`none`) unless the
slice length is exactly `N`. -/
def GenericArray.from_slice (N : Nat) (l : List Nat) : Option (ByteArrayN N) :=
  if h : l.length = N then some ⟨l, h⟩ else none

/-- Model of `GenericArray::clone_from_slice`, which panics (`none`) unless
the slice length is exactly `N`. -/
def GenericArray.clone_from_slice (N : Nat) (l : List Nat) : Option (ByteArrayN N) :=
  if h : l.length = N then some ⟨l, h⟩ else none

/-- Modelled loop body of the external `constant_time_eq` crate, whose
algorithm the spec describes: accumulate a bitwise OR of the XOR of
corresponding byte pairs across the full length. The accumulator is the
third argument; the recursion never inspects it, so there is no early
exit. -/
def cte_fold : List Nat → List Nat → Nat → Nat
  | [], _, x => x
  | _, [], x => x
  | a :: xs, b :: ys, x => cte_fold xs ys (x ||| (a ^^^ b))

/-- Modelled from the external `constant_time_eq` crate used by the
`PartialEq` impl of `MacResult`: unequal lengths compare unequal, otherwise
the XOR-OR accumulator is tested against zero exactly once at the end. -/
def constant_time_eq (a b : List Nat) : Bool :=
  if a.length ≠ b.length then false
  else cte_fold a b 0 == 0

/-- Instrumented variant of `cte_fold`: the first component reproduces the
accumulator `cte_fold` computes, the second counts the loop iterations
executed — the cost model for the comparison. -/
def cte_fold_instr : List Nat → List Nat → Nat → Nat × Nat
  | [], _, x => (x, 0)
  | _, [], x => (x, 0)
  | a :: xs, b :: ys, x =>
    let r := cte_fold_instr xs ys (x ||| (a ^^^ b))
    (r.1, r.2 + 1)

/-- Error type for signaling failed MAC verification: a unit struct with no
fields. -/
structure MacError where
  deriving DecidableEq

/-- Error type for signaling invalid key length for MAC initialization: a
unit struct with no fields. -/
structure InvalidKeyLength where
  deriving DecidableEq

/-- `MacResult` is a thin wrapper around a bytes array which provides a safe
fixed-time equality. -/
structure MacResult (N : Nat) where
  code : ByteArrayN N
  deriving DecidableEq

/-- Model of `MacResult::new`. -/
def MacResult.new {N : Nat} (code : ByteArrayN N) : MacResult N :=
  { code := code }

/-- Model of the `PartialEq::eq` impl for `MacResult`: constant-time
comparison of the wrapped byte arrays. -/
def MacResult.beq {N : Nat} (x y : MacResult N) : Bool :=
  constant_time_eq x.code.val y.code.val

/-- Model of the `Mac` trait: an implementation supplies its state type, the
two size constants, and the three required methods `new`, `input` and
`result`. -/
structure Mac where
  State : Type
  KeySize : Nat
  OutputSize : Nat
  new : ByteArrayN KeySize → State
  input : State → List Nat → State
  result : State → MacResult OutputSize × State

/-- Model of the derived trait method `Mac::new_varkey`: reject a key whose
length differs from `KeySize`, otherwise convert the slice and delegate to
`new`. The outer `none` stands for a panic of `GenericArray::from_slice`. -/
def Mac.new_varkey (M : Mac) (key : List Nat) :
    Option (Except InvalidKeyLength M.State) :=
  if key.length ≠ M.KeySize then some (Except.error InvalidKeyLength.mk)
  else
    match GenericArray.from_slice M.KeySize key with
    | none => none
    | some k => some (Except.ok (M.new k))

/-- Model of the derived trait method `Mac::verify`: reject a code whose
length differs from `OutputSize`, otherwise wrap it as a `MacResult`,
invoke `result`, and compare the two via the constant-time equality. The
outer `none` stands for a panic of `GenericArray::clone_from_slice`. -/
def Mac.verify (M : Mac) (s : M.State) (code : List Nat) :
    Option (Except MacError Unit × M.State) :=
  if M.OutputSize ≠ code.length then some (Except.error MacError.mk, s)
  else
    match GenericArray.clone_from_slice M.OutputSize code with
    | none => none
    | some arr =>
      let result := MacResult.new arr
      let r := M.result s
      if result.beq r.1 = false then some (Except.error MacError.mk, r.2)
      else some (Except.ok (), r.2)

/-- Wrapper around an implementation that counts invocations of `result`:
the state carries a counter that only the `result` method increments, and
every method delegates to `M`. -/
def Mac.instrument (M : Mac) : Mac where
  State := M.State × Nat
  KeySize := M.KeySize
  OutputSize := M.OutputSize
  new k := (M.new k, 0)
  input s d := (M.input s.1 d, s.2)
  result s := ((M.result s.1).1, ((M.result s.1).2, s.2 + 1))

/-- Concrete `Mac` instance used to instantiate the universally quantified
theorems at concrete inputs: two-byte key, one-byte tag; the state keeps the
key bytes and the accumulated input, and `result` resets the accumulated
input as the trait documentation demands. -/
def TestMac : Mac where
  State := List Nat × List Nat
  KeySize := 2
  OutputSize := 1
  new k := (k.val, [])
  input s d := (s.1, s.2 ++ d)
  result s := (MacResult.new ⟨[(s.1.sum + s.2.sum) % 256], rfl⟩, (s.1, []))

/-- A keyed `TestMac` state with no accumulated input. -/
def keyedState : List Nat × List Nat := ([3, 4], [])

/-- A `TestMac` state with pending accumulated input. -/
def pendingState : List Nat × List Nat := ([3, 4], [1, 2, 3])

theorem nat_or_eq_zero (a b : Nat) : a ||| b = 0 ↔ a = 0 ∧ b = 0 := by
  constructor
  · intro h
    constructor
    · refine Nat.zero_of_testBit_eq_false fun i => ?_
      have hb := congrArg (fun n => Nat.testBit n i) h
      simp only [Nat.testBit_or, Nat.zero_testBit, Bool.or_eq_false_iff] at hb
      exact hb.1
    · refine Nat.zero_of_testBit_eq_false fun i => ?_
      have hb := congrArg (fun n => Nat.testBit n i) h
      simp only [Nat.testBit_or, Nat.zero_testBit, Bool.or_eq_false_iff] at hb
      exact hb.2
  · rintro ⟨rfl, rfl⟩
    rfl

theorem cte_fold_eq_zero (a : List Nat) : ∀ (b : List Nat) (x : Nat),
    a.length = b.length → (cte_fold a b x = 0 ↔ x = 0 ∧ a = b) := by
  induction a with
  | nil =>
    intro b x h
    cases b with
    | nil => simp [cte_fold]
    | cons y ys => simp at h
  | cons a xs ih =>
    intro b x h
    cases b with
    | nil => simp at h
    | cons y ys =>
      simp only [List.length_cons, Nat.succ_inj] at h
      simp only [cte_fold]
      rw [ih ys _ h, nat_or_eq_zero, Nat.xor_eq_zero]
      constructor
      · rintro ⟨⟨hx, hxy⟩, hxs⟩
        exact ⟨hx, by rw [hxy, hxs]⟩
      · rintro ⟨hx, h2⟩
        injection h2 with h3 h4
        exact ⟨⟨hx, h3⟩, h4⟩

theorem constant_time_eq_iff (a b : List Nat) (h : a.length = b.length) :
    constant_time_eq a b = true ↔ a = b := by
  unfold constant_time_eq
  rw [if_neg (by simp [h])]
  rw [beq_iff_eq, cte_fold_eq_zero a b 0 h]
  simp

theorem cte_fold_instr_fst (a : List Nat) : ∀ (b : List Nat) (x : Nat),
    (cte_fold_instr a b x).1 = cte_fold a b x := by
  induction a with
  | nil => intro b x; cases b <;> rfl
  | cons a xs ih =>
    intro b x
    cases b with
    | nil => rfl
    | cons y ys => simpa [cte_fold_instr, cte_fold] using ih ys _

theorem cte_fold_instr_steps (a : List Nat) : ∀ (b : List Nat) (x : Nat),
    (cte_fold_instr a b x).2 = min a.length b.length := by
  induction a with
  | nil => intro b x; cases b <;> simp [cte_fold_instr]
  | cons a xs ih =>
    intro b x
    cases b with
    | nil => simp [cte_fold_instr]
    | cons y ys =>
      simp only [cte_fold_instr, List.length_cons, ih ys]
      omega

theorem MacResult.beq_iff {N : Nat} (x y : MacResult N) :
    x.beq y = true ↔ x.code.val = y.code.val := by
  have h : x.code.val.length = y.code.val.length := by
    rw [x.code.property, y.code.property]
  exact constant_time_eq_iff x.code.val y.code.val h

theorem Mac.verify_length_ne (M : Mac) (s : M.State) (code : List Nat)
    (h : M.OutputSize ≠ code.length) :
    M.verify s code = some (Except.error MacError.mk, s) := by
  unfold Mac.verify
  rw [if_pos h]

theorem Mac.verify_length_eq (M : Mac) (s : M.State) (code : List Nat)
    (h : M.OutputSize = code.length) :
    M.verify s code =
      if (MacResult.new ⟨code, h.symm⟩).beq (M.result s).1 = false
      then some (Except.error MacError.mk, (M.result s).2)
      else some (Except.ok (), (M.result s).2) := by
  unfold Mac.verify GenericArray.clone_from_slice
  rw [if_neg (by simp [h]), dif_pos h.symm]

/-- C1: for every tag length N and every pair of N-byte buffers A and B, the
`MacResult` equality (`PartialEq::eq`, model `MacResult.beq`) returns true
iff A and B are byte-for-byte identical, including the empty case N = 0. -/
theorem MacResult.beq_iff_bytes_eq (N : Nat) (a b : ByteArrayN N) :
    (MacResult.new a).beq (MacResult.new b) = true ↔ a.val = b.val :=
  MacResult.beq_iff (MacResult.new a) (MacResult.new b)

/-- C3: cost model of the constant-time comparison: on two N-byte buffers
the comparison loop executes exactly N iterations — a quantity depending
only on N, never on the contents or on the position of the first mismatch,
so the loop never exits early — and the instrumented loop computes exactly
the accumulator `constant_time_eq` tests against zero once at the end. -/
theorem constant_time_eq_cost (N : Nat) (a b : ByteArrayN N) :
    (cte_fold_instr a.val b.val 0).2 = N ∧
    (cte_fold_instr a.val b.val 0).1 = cte_fold a.val b.val 0 ∧
    constant_time_eq a.val b.val = (cte_fold a.val b.val 0 == 0) := by
  refine ⟨?_, cte_fold_instr_fst a.val b.val 0, ?_⟩
  · rw [cte_fold_instr_steps a.val b.val 0, a.property, b.property, Nat.min_self]
  · unfold constant_time_eq
    rw [if_neg (by simp [a.property, b.property])]

/-- C8: the `MacResult` operations are total pure functions with no error
path: construction wraps the bytes without failure, extraction returns
exactly the N wrapped bytes, and the equality comparison is everywhere
defined, equal to the total function `constant_time_eq`, and always yields
one of the two boolean outcomes — none of the three returns an `Option` or
`Except` because the source has no fallible construct in them. -/
theorem MacResult.total_ops (N : Nat) (a : ByteArrayN N) (x y : MacResult N) :
    (MacResult.new a).code = a ∧
    (MacResult.new a).code.val.length = N ∧
    x.beq y = constant_time_eq x.code.val y.code.val ∧
    (x.beq y = true ∨ x.beq y = false) := by
  refine ⟨rfl, a.property, rfl, ?_⟩
  cases h : x.beq y
  · exact Or.inr rfl
  · exact Or.inl rfl

/-- C9: the derived operations `new_varkey` and `verify` never reach the
panicking branch of the slice-to-array conversions: for every key, state
and candidate code they return a value (`none` models the panic of
`GenericArray::from_slice` and `GenericArray::clone_from_slice`, reached
only when the preceding length check would have failed). -/
theorem Mac.derived_no_panic (M : Mac) (key : List Nat) (s : M.State)
    (code : List Nat) :
    M.new_varkey key ≠ none ∧ M.verify s code ≠ none := by
  constructor
  · unfold Mac.new_varkey
    by_cases h : key.length ≠ M.KeySize
    · rw [if_pos h]; simp
    · rw [if_neg h]
      unfold GenericArray.from_slice
      rw [dif_pos (not_not.mp h)]
      simp
  · by_cases h : M.OutputSize = code.length
    · rw [Mac.verify_length_eq M s code h]
      split <;> simp
    · rw [Mac.verify_length_ne M s code h]
      simp

/-- C10: construction followed by raw extraction is the identity:
`MacResult::new(b).code()` returns b unchanged. -/
theorem MacResult.new_code_id (N : Nat) (b : ByteArrayN N) :
    (MacResult.new b).code = b := rfl

/-- C2: `verify` returns `Ok(())` iff the candidate code has exactly the
output length and exactly the bytes of the tag that `result` produces on
the current state; in every other case it returns `Err(MacError)`; and on
the matching-length path its outcome is decided precisely by the
constant-time `MacResult` equality of the wrapped candidate against the
computed tag. -/
theorem Mac.verify_ok_iff (M : Mac) (s : M.State) (code : List Nat) :
    ((∃ t, M.verify s code = some (Except.ok (), t)) ↔
      code.length = M.OutputSize ∧ code = (M.result s).1.code.val) ∧
    (¬ (code.length = M.OutputSize ∧ code = (M.result s).1.code.val) →
      ∃ t, M.verify s code = some (Except.error MacError.mk, t)) ∧
    (∀ h : M.OutputSize = code.length,
      M.verify s code =
        if (MacResult.new ⟨code, h.symm⟩).beq (M.result s).1 = false
        then some (Except.error MacError.mk, (M.result s).2)
        else some (Except.ok (), (M.result s).2)) := by
  by_cases h : M.OutputSize = code.length
  · have hbeq := MacResult.beq_iff (MacResult.new ⟨code, h.symm⟩) (M.result s).1
    have hv := Mac.verify_length_eq M s code h
    cases hb : (MacResult.new ⟨code, h.symm⟩).beq (M.result s).1 with
    | false =>
      rw [hb] at hv hbeq
      simp only [if_pos rfl] at hv
      simp only [Bool.false_eq_true, false_iff] at hbeq
      refine ⟨?_, fun hc => ⟨(M.result s).2, hv⟩, fun h2 => Mac.verify_length_eq M s code h⟩
      constructor
      · rintro ⟨t, ht⟩
        rw [hv] at ht
        simp at ht
      · rintro ⟨hl, hc⟩
        exact absurd hc hbeq
    | true =>
      rw [hb] at hv hbeq
      simp only [Bool.true_eq_false, if_false] at hv
      simp only [true_iff] at hbeq
      refine ⟨?_, fun hc => absurd ⟨h.symm, hbeq⟩ hc,
        fun h2 => Mac.verify_length_eq M s code h⟩
      exact ⟨fun _ => ⟨h.symm, hbeq⟩, fun _ => ⟨(M.result s).2, hv⟩⟩
  · have hv := Mac.verify_length_ne M s code h
    refine ⟨?_, fun hc => ⟨s, hv⟩, fun h2 => absurd h2 h⟩
    constructor
    · rintro ⟨t, ht⟩
      rw [hv] at ht
      simp at ht
    · rintro ⟨hl, hc⟩
      exact absurd hl.symm h

/-- Witness for C2 at the concrete instance `TestMac`: the true tag of the
freshly keyed state is accepted and a same-length wrong tag is rejected. -/
theorem Mac.verify_ok_iff_witness :
    (∃ t, TestMac.verify keyedState [7] = some (Except.ok (), t)) ∧
    (∃ t, TestMac.verify keyedState [9] = some (Except.error MacError.mk, t)) :=
  ⟨(Mac.verify_ok_iff TestMac keyedState [7]).1.mpr (by decide),
   (Mac.verify_ok_iff TestMac keyedState [9]).2.1 (by decide)⟩

/-- C4: `new_varkey` fails with `InvalidKeyLength` iff the key length
differs from the required key size — in which case no instance is
constructed, the returned value carrying no state at all — and on a
matching length it returns exactly `Ok(new(key))`, the fixed-key
constructor applied to that key. -/
theorem Mac.new_varkey_spec (M : Mac) (key : List Nat) :
    (M.new_varkey key = some (Except.error InvalidKeyLength.mk) ↔
      key.length ≠ M.KeySize) ∧
    (∀ h : key.length = M.KeySize,
      M.new_varkey key = some (Except.ok (M.new ⟨key, h⟩))) := by
  by_cases h : key.length = M.KeySize
  · have hv : M.new_varkey key = some (Except.ok (M.new ⟨key, h⟩)) := by
      unfold Mac.new_varkey GenericArray.from_slice
      rw [if_neg (by simp [h]), dif_pos h]
    refine ⟨?_, fun h2 => hv⟩
    rw [hv]
    simp [h]
  · have hv : M.new_varkey key = some (Except.error InvalidKeyLength.mk) := by
      unfold Mac.new_varkey
      rw [if_pos h]
    exact ⟨by simp [hv, h], fun h2 => absurd h2 h⟩

/-- Witness for C4 at the concrete instance `TestMac`: a one-byte key is
rejected by the two-byte-key instance and a two-byte key constructs exactly
the fixed-key instance. -/
theorem Mac.new_varkey_spec_witness :
    TestMac.new_varkey [9] = some (Except.error InvalidKeyLength.mk) ∧
    TestMac.new_varkey [3, 4] = some (Except.ok (TestMac.new ⟨[3, 4], rfl⟩)) :=
  ⟨(Mac.new_varkey_spec TestMac [9]).1.mpr (by decide),
   (Mac.new_varkey_spec TestMac [3, 4]).2 rfl⟩

/-- C5: `MacError` is a unit value carrying no fields — any two `MacError`
values are equal — so the wrong-length failure and the wrong-content
failure of `verify` return one and the same error value, indistinguishable
between the two sub-cases. -/
theorem MacError.indistinguishable :
    (∀ e₁ e₂ : MacError, e₁ = e₂) ∧
    (∀ (M : Mac) (s₁ s₂ : M.State) (c₁ c₂ : List Nat) (e₁ e₂ : MacError)
      (t₁ t₂ : M.State),
      M.verify s₁ c₁ = some (Except.error e₁, t₁) →
      M.verify s₂ c₂ = some (Except.error e₂, t₂) → e₁ = e₂) := by
  refine ⟨fun e₁ e₂ => ?_, fun M s₁ s₂ c₁ c₂ e₁ e₂ t₁ t₂ h₁ h₂ => ?_⟩
  · cases e₁; cases e₂; rfl
  · cases e₁; cases e₂; rfl

/-- Witness for C5 at the concrete instance `TestMac`: the error produced
by a wrong-length candidate equals the error produced by a same-length
wrong-content candidate. -/
theorem MacError.indistinguishable_witness : MacError.mk = MacError.mk :=
  MacError.indistinguishable.2 TestMac keyedState keyedState [] [9]
    MacError.mk MacError.mk keyedState keyedState rfl rfl

/-- C6 counterexample: a `verify` call whose candidate tag has the wrong
length does not reset the accumulation state: at the concrete instance
`TestMac`, verifying an empty candidate from a state with pending input
[1, 2, 3] returns the error together with the unchanged state, which still
carries the pending input and differs from the reset state `result`
produces — refuting the claim that every `verify` call resets the
instance. -/
theorem Mac.verify_wrong_length_keeps_state :
    TestMac.verify pendingState [] =
      some (Except.error MacError.mk, pendingState) ∧
    (TestMac.result pendingState).2 = keyedState ∧
    pendingState ≠ keyedState :=
  ⟨rfl, rfl, by decide⟩

/-- C6 amended: `verify` resets the accumulation state exactly when the
candidate tag has the correct length: on a matching length the post state
is the successor state of `result` — on success and on content mismatch
alike — while on a wrong length `verify` returns the error with the state
unchanged, `result` never having been invoked. -/
theorem Mac.verify_reset_spec (M : Mac) (s : M.State) (code : List Nat) :
    (M.OutputSize = code.length →
      ∃ e, M.verify s code = some (e, (M.result s).2)) ∧
    (M.OutputSize ≠ code.length →
      M.verify s code = some (Except.error MacError.mk, s)) := by
  refine ⟨fun h => ?_, fun h => Mac.verify_length_ne M s code h⟩
  rw [Mac.verify_length_eq M s code h]
  split
  · exact ⟨Except.error MacError.mk, rfl⟩
  · exact ⟨Except.ok (), rfl⟩

/-- Witness for the amended C6 at the concrete instance `TestMac`: a
same-length wrong tag resets the pending input while an empty tag leaves it
in place. -/
theorem Mac.verify_reset_spec_witness :
    (∃ e, TestMac.verify pendingState [9] = some (e, keyedState)) ∧
    TestMac.verify pendingState [] =
      some (Except.error MacError.mk, pendingState) :=
  ⟨(Mac.verify_reset_spec TestMac pendingState [9]).1 rfl,
   (Mac.verify_reset_spec TestMac pendingState []).2 (by decide)⟩

/-- C7: on every matching-length path `verify` invokes `result` exactly
once — running the derived method on the instrumented wrapper increments
the `result` counter by exactly one — the final state is the successor
state of `result` whether or not the content matches, and the comparison
performed is the full `OutputSize`-iteration constant-time loop. -/
theorem Mac.verify_result_once (M : Mac) (s : M.State) (n : Nat)
    (code : List Nat) (h : M.OutputSize = code.length) :
    (∃ e, (M.instrument).verify (s, n) code =
      some (e, ((M.result s).2, n + 1))) ∧
    (cte_fold_instr code (M.result s).1.code.val 0).2 = M.OutputSize := by
  constructor
  · have h2 : (M.instrument).OutputSize = code.length := h
    rw [Mac.verify_length_eq (M.instrument) (s, n) code h2]
    split
    · exact ⟨Except.error MacError.mk, rfl⟩
    · exact ⟨Except.ok (), rfl⟩
  · rw [cte_fold_instr_steps]
    rw [(M.result s).1.code.property, ← h, Nat.min_self]

/-- Witness for C7 at the concrete instance `TestMac` with a same-length
wrong tag: the counter goes from 0 to 1 and the loop runs one iteration. -/
theorem Mac.verify_result_once_witness :
    (∃ e, (TestMac.instrument).verify (keyedState, 0) [9] =
      some (e, ((TestMac.result keyedState).2, 1))) ∧
    (cte_fold_instr [9] (TestMac.result keyedState).1.code.val 0).2 =
      TestMac.OutputSize :=
  Mac.verify_result_once TestMac keyedState 0 [9] rfl
